import Mathlib

/-!
# Verification of the income-inequality dashboard (`src/app.py`)

A shallow embedding of the data-handling core of the Shiny dashboard in
`src/app.py`, together with theorems settling the specification claims.

Modelling conventions:
* a pandas `DataFrame` is a `Table`: an ordered list of column names plus an
  ordered list of `Record`s (one per row);
* boolean-mask row selection `df[mask]` is `List.filter`;
* string columns are `String`, the numeric columns (`age`, `capital_gain`,
  `hours_per_week`) are `Nat` (they are non-negative integers in the dataset);
* the derived `age_group` column is `Option String` (`none` is pandas `NaN`,
  produced by `pd.cut` for out-of-range values);
* pandas string helpers (`str.strip` / `str.lower` / `str.replace`) are
  modelled at the character-list level over ASCII, which covers the column
  names this app manipulates.
-/

namespace IncomeApp

/-- One row of the dataset, restricted to the columns `app.py` reads:
`age`, `workclass`, `education`, `occupation`, `race`, `gender`,
`capital_gain`, `hours_per_week`, `native_country`, `income`, and the derived
`age_group` column (absent before cleaning, hence an `Option`). -/
structure Record where
  age : Nat
  workclass : String
  education : String
  occupation : String
  race : String
  gender : String
  capital_gain : Nat
  hours_per_week : Nat
  native_country : String
  income : String
  age_group : Option String
  deriving DecidableEq, Repr

/-- A data frame: ordered column names plus ordered rows. -/
structure Table where
  cols : List String
  rows : List Record
  deriving DecidableEq, Repr

/-- The UI filter-parameter state: the Demographics sidebar inputs
(`gender`, `age` slider `[ageLo, ageHi]`, `race`), the Education tab inputs
(`education`, `occupation`), and the Financial tab inputs
(`capital_gain` checkbox, `hours` slider `[hoursLo, hoursHi]`). -/
structure Params where
  gender : String
  ageLo : Nat
  ageHi : Nat
  race : String
  education : String
  occupation : String
  capital_gain_only : Bool
  hoursLo : Nat
  hoursHi : Nat
  deriving DecidableEq, Repr

/-- `pd.cut(df['age'], bins=[18,25,35,45,55,65,100], labels=[...], right=False)`
from `load_data` (src/app.py lines 21-23): with `right=False` every bin is
left-closed and right-open, including the last one `[65, 100)`; values outside
the bins become `NaN` (`none`). -/
def ageGroup (a : Nat) : Option String :=
  if 18 ≤ a ∧ a < 25 then some "18-25"
  else if 25 ≤ a ∧ a < 35 then some "26-35"
  else if 35 ≤ a ∧ a < 45 then some "36-45"
  else if 45 ≤ a ∧ a < 55 then some "46-55"
  else if 55 ≤ a ∧ a < 65 then some "56-65"
  else if 65 ≤ a ∧ a < 100 then some "65+"
  else none

/-- The reactive calc `filtered_data` (src/app.py lines 167-181): start from a
copy of the dataset, filter by gender equality when the gender input is not
"All", then by `age` between the two slider values inclusive, then by race
equality when the race input is not "All". -/
def filtered_data (p : Params) (df : List Record) : List Record :=
  let data := df
  let data := if p.gender ≠ "All" then data.filter (fun r => r.gender = p.gender) else data
  let data := data.filter (fun r => p.ageLo ≤ r.age ∧ r.age ≤ p.ageHi)
  let data := if p.race ≠ "All" then data.filter (fun r => r.race = p.race) else data
  data

/-- The conjunction of the three active global predicates, as one mask. -/
def globalPred (p : Params) (r : Record) : Bool :=
  decide ((p.gender = "All" ∨ r.gender = p.gender) ∧
    (p.ageLo ≤ r.age ∧ r.age ≤ p.ageHi) ∧
    (p.race = "All" ∨ r.race = p.race))

set_option maxRecDepth 4000 in
theorem filtered_data_eq_filter (p : Params) (df : List Record) :
    filtered_data p df = df.filter (globalPred p) := by
  unfold filtered_data globalPred
  split_ifs with h1 h2 h2 <;>
    simp only [List.filter_filter] <;>
    · apply List.filter_congr
      intro r _
      rw [Bool.eq_iff_iff]
      simp only [Bool.and_eq_true, decide_eq_true_eq]
      constructor
      · tauto
      · tauto

/-- C1: for every filter-parameter state, the global filtered view equals
exactly the subset of the dataset passing the AND of the active global
predicates (gender equality unless "All", `age` in `[lo, hi]` inclusive, race
equality unless "All"); with `lo = hi` only records of that exact age remain,
and an age range entirely outside the dataset's ages yields an empty view. -/
theorem global_filter_view_spec (p : Params) (df : List Record) :
    filtered_data p df =
      df.filter (fun r => decide ((p.gender = "All" ∨ r.gender = p.gender) ∧
        (p.ageLo ≤ r.age ∧ r.age ≤ p.ageHi) ∧
        (p.race = "All" ∨ r.race = p.race))) ∧
    (p.ageLo = p.ageHi → ∀ r ∈ filtered_data p df, r.age = p.ageLo) ∧
    ((∀ r ∈ df, r.age < p.ageLo ∨ p.ageHi < r.age) → filtered_data p df = []) := by
  refine ⟨filtered_data_eq_filter p df, ?_, ?_⟩
  · intro hlo r hr
    rw [filtered_data_eq_filter] at hr
    have := List.of_mem_filter hr
    simp [globalPred] at this
    omega
  · intro h
    rw [filtered_data_eq_filter]
    rw [List.filter_eq_nil_iff]
    intro r hr
    have := h r hr
    simp [globalPred]
    intro _ h1 h2
    omega

theorem global_filter_view_spec_witness :
    filtered_data ⟨"All", 95, 99, "All", "All", "All", false, 1, 99⟩
      [⟨39, "State-gov", "Bachelors", "Adm-clerical", "White", "Male",
        2174, 40, "United-States", "<=50K", some "36-45"⟩] = [] :=
  (global_filter_view_spec _ _).2.2 (by decide)

/-- C4 counterexample: the claim labels the last bin `[65,100]`, i.e. it puts
age 100 in the `"65+"` bucket; the code (`pd.cut` with `right=False`) makes
every bin right-open, so age 100 falls outside all bins and gets a missing
`age_group`. -/
theorem age_bins_claim_cex :
    ¬ (ageGroup 100 = some "65+") ∧ ageGroup 100 = none := by decide

/-- C4 (amended): `age_group` is derived by bucketing age into the half-open
bins `[18,25) [25,35) [35,45) [45,55) [55,65) [65,100)` — all right-open,
including the last — labeled in order `"18-25"`, `"26-35"`, `"36-45"`,
`"46-55"`, `"56-65"`, `"65+"`; any age outside `[18, 100)` maps to the
missing bucket, while the record itself is retained by the cleaning. -/
theorem age_bins_spec (a : Nat) :
    (ageGroup a = some "18-25" ↔ 18 ≤ a ∧ a < 25) ∧
    (ageGroup a = some "26-35" ↔ 25 ≤ a ∧ a < 35) ∧
    (ageGroup a = some "36-45" ↔ 35 ≤ a ∧ a < 45) ∧
    (ageGroup a = some "46-55" ↔ 45 ≤ a ∧ a < 55) ∧
    (ageGroup a = some "56-65" ↔ 55 ≤ a ∧ a < 65) ∧
    (ageGroup a = some "65+" ↔ 65 ≤ a ∧ a < 100) ∧
    (ageGroup a = none ↔ a < 18 ∨ 100 ≤ a) := by
  unfold ageGroup
  split_ifs <;> simp_all <;> omega

/-- `income_by_education` (src/app.py lines 234-248): the data behind the
education histogram — the global filtered view, additionally filtered by
education equality when the education input is not "All". -/
def income_by_education_data (p : Params) (df : List Record) : List Record :=
  let data := filtered_data p df
  if p.education ≠ "All" then data.filter (fun r => r.education = p.education) else data

/-- The local refinement of `top_occupations` (src/app.py lines 253-255):
the global filtered view, filtered by occupation equality when the occupation
input is not "All". -/
def top_occupations_data (p : Params) (df : List Record) : List Record :=
  let data := filtered_data p df
  if p.occupation ≠ "All" then data.filter (fun r => r.occupation = p.occupation) else data

/-- `capital_gain_plot` (src/app.py lines 286-299): the global filtered view,
restricted to records with positive capital gain when the checkbox is on. -/
def capital_gain_plot_data (p : Params) (df : List Record) : List Record :=
  let data := filtered_data p df
  if p.capital_gain_only then data.filter (fun r => 0 < r.capital_gain) else data

/-- `hours_vs_income` (src/app.py lines 302-317): the global filtered view,
restricted to the hours slider range (inclusive on both ends). -/
def hours_vs_income_data (p : Params) (df : List Record) : List Record :=
  let data := filtered_data p df
  data.filter (fun r => p.hoursLo ≤ r.hours_per_week ∧ r.hours_per_week ≤ p.hoursHi)

/-- C3: the shared global view depends only on gender, age range and race —
two parameter states agreeing on those three produce the same view however
the secondary inputs differ — while the education, occupation, capital-gain
and hours filters are each applied downstream, as a local filter over the
shared global view. -/
theorem secondary_filters_applied_downstream (p q : Params) (df : List Record)
    (hg : p.gender = q.gender) (hlo : p.ageLo = q.ageLo)
    (hhi : p.ageHi = q.ageHi) (hr : p.race = q.race) :
    filtered_data p df = filtered_data q df ∧
    income_by_education_data p df =
      (filtered_data p df).filter
        (fun r => p.education = "All" ∨ r.education = p.education) ∧
    top_occupations_data p df =
      (filtered_data p df).filter
        (fun r => p.occupation = "All" ∨ r.occupation = p.occupation) ∧
    capital_gain_plot_data p df =
      (filtered_data p df).filter
        (fun r => p.capital_gain_only = false ∨ 0 < r.capital_gain) ∧
    hours_vs_income_data p df =
      (filtered_data p df).filter
        (fun r => p.hoursLo ≤ r.hours_per_week ∧ r.hours_per_week ≤ p.hoursHi) := by
  refine ⟨?_, ?_, ?_, ?_, ?_⟩
  · rw [filtered_data_eq_filter, filtered_data_eq_filter]
    apply List.filter_congr
    intro r _
    unfold globalPred
    rw [hg, hlo, hhi, hr]
  · unfold income_by_education_data
    split_ifs with h
    · apply List.filter_congr
      intro r _
      rw [Bool.eq_iff_iff]
      simp only [decide_eq_true_eq]
      tauto
    · rw [eq_comm, List.filter_eq_self]
      intro r _
      simp only [decide_eq_true_eq]
      tauto
  · unfold top_occupations_data
    split_ifs with h
    · apply List.filter_congr
      intro r _
      rw [Bool.eq_iff_iff]
      simp only [decide_eq_true_eq]
      tauto
    · rw [eq_comm, List.filter_eq_self]
      intro r _
      simp only [decide_eq_true_eq]
      tauto
  · unfold capital_gain_plot_data
    split_ifs with h
    · apply List.filter_congr
      intro r _
      rw [Bool.eq_iff_iff]
      simp only [decide_eq_true_eq]
      simp [h]
    · rw [eq_comm, List.filter_eq_self]
      intro r _
      simp only [decide_eq_true_eq]
      simp only [Bool.not_eq_true] at h
      tauto
  · rfl

theorem secondary_filters_applied_downstream_witness :
    filtered_data ⟨"Female", 20, 60, "All", "Bachelors", "All", false, 1, 99⟩
        [⟨30, "Private", "Bachelors", "Sales", "White", "Female",
          0, 40, "United-States", "<=50K", some "26-35"⟩] =
      filtered_data ⟨"Female", 20, 60, "All", "All", "Sales", true, 30, 50⟩
        [⟨30, "Private", "Bachelors", "Sales", "White", "Female",
          0, 40, "United-States", "<=50K", some "26-35"⟩] :=
  (secondary_filters_applied_downstream _ _ _ rfl rfl rfl rfl).1

/-- The two shapes a tab's rendered UI can take (src/app.py lines 185-193,
220-230, 272-282): either the `ui.h4("No data available for current filters")`
placeholder, or the tab's charts drawn over the current data. -/
inductive Rendered where
  | noData : Rendered
  | charts : List Record → Rendered
  deriving DecidableEq, Repr

/-- `demographics_plots` (src/app.py lines 185-193). -/
def demographics_plots (p : Params) (df : List Record) : Rendered :=
  let data := filtered_data p df
  if data.length = 0 then .noData else .charts data

/-- `education_plots` (src/app.py lines 220-230). -/
def education_plots (p : Params) (df : List Record) : Rendered :=
  let data := filtered_data p df
  if data.length = 0 then .noData else .charts data

/-- `financial_plots` (src/app.py lines 272-282). -/
def financial_plots (p : Params) (df : List Record) : Rendered :=
  let data := filtered_data p df
  if data.length = 0 then .noData else .charts data

/-- Helper for `firstUniques`: values of the list not yet seen, in order. -/
def firstUniquesAux (seen : List String) : List String → List String
  | [] => []
  | x :: xs =>
      if x ∈ seen then firstUniquesAux seen xs
      else x :: firstUniquesAux (x :: seen) xs

/-- The distinct values of a list in order of first encounter — the order in
which a pandas hash-based `value_counts` first meets each unique value. -/
def firstUniques (l : List String) : List String :=
  firstUniquesAux [] l

/-- Number of occurrences of a value in a list. -/
def countVal (occs : List String) (o : String) : Nat :=
  (occs.filter (fun x => x = o)).length

/-- Sorting order of `value_counts`: larger count first; on equal counts,
first-encountered value first (stable sort by count descending). -/
def vcLE (occs : List String) (a b : String × Nat) : Prop :=
  b.2 < a.2 ∨ (a.2 = b.2 ∧ (firstUniques occs).indexOf a.1 ≤ (firstUniques occs).indexOf b.1)

instance (occs : List String) : DecidableRel (vcLE occs) := fun a b => by
  unfold vcLE
  infer_instance

/-- Model of `Series.value_counts()` (used at src/app.py line 257): pair each
distinct value with its count and sort by count descending, stably with
respect to first-encounter order. -/
def value_counts (occs : List String) : List (String × Nat) :=
  List.insertionSort (vcLE occs) ((firstUniques occs).map (fun o => (o, countVal occs o)))

/-- The two shapes of the top-occupations figure (src/app.py lines 258-270):
the `plt.text` "No data available" placeholder, or a bar chart of
occupation/count pairs. -/
inductive OccRender where
  | noDataText : OccRender
  | barChart : List (String × Nat) → OccRender
  deriving DecidableEq, Repr

/-- `top_occupations` (src/app.py lines 252-270): refine the global view by
the local occupation filter, count occupations among records with income
`'>50K'`, keep the top 10, and render a placeholder if none remain. -/
def top_occupations_chart (p : Params) (df : List Record) : OccRender :=
  let data := top_occupations_data p df
  let top_jobs :=
    (value_counts ((data.filter (fun r => r.income = ">50K")).map
      (fun r => r.occupation))).take 10
  if top_jobs.length = 0 then .noDataText else .barChart top_jobs

/-- C6: when the global filtered view is empty each tab's renderer
short-circuits to the "No data available for current filters" placeholder
instead of drawing its charts; and when the top-occupations refinement has no
record with income `'>50K'`, the top-occupations figure is the placeholder
artifact rather than an empty chart. (All renderers are total functions: no
input raises an error.) -/
theorem empty_view_renders_placeholder (p : Params) (df : List Record) :
    (filtered_data p df = [] →
      demographics_plots p df = .noData ∧
      education_plots p df = .noData ∧
      financial_plots p df = .noData) ∧
    ((top_occupations_data p df).filter (fun r => r.income = ">50K") = [] →
      top_occupations_chart p df = .noDataText) := by
  constructor
  · intro h
    refine ⟨?_, ?_, ?_⟩ <;>
      simp [demographics_plots, education_plots, financial_plots, h]
  · intro h
    simp only [top_occupations_chart, h]
    simp [value_counts, firstUniques, firstUniquesAux, List.insertionSort]

theorem empty_view_renders_placeholder_witness :
    demographics_plots ⟨"All", 25, 60, "All", "All", "All", false, 1, 99⟩ [] =
        Rendered.noData ∧
      top_occupations_chart ⟨"All", 25, 60, "All", "All", "All", false, 1, 99⟩ [] =
        OccRender.noDataText :=
  ⟨((empty_view_renders_placeholder _ _).1 (by decide)).1,
    (empty_view_renders_placeholder _ _).2 (by decide)⟩

/-- Modelled from the spec: the caching contract of the reactive framework
around `filtered_data` (the `@reactive.calc` decorator's memoization and
invalidation machinery is framework code, not part of this repository's
source). State: the current filter parameters, the immutable dataset, the
cached view (`none` when invalidated) and a recomputation counter used only
to state the temporal claims. -/
structure Engine where
  params : Params
  df : List Record
  cache : Option (List Record)
  recomputes : Nat
  deriving DecidableEq, Repr

/-- Modelled from the spec: `current_view()` — return the cached view when it
is valid, otherwise recompute `filtered_data` once, fill the cache, and bump
the recomputation counter. -/
def current_view (e : Engine) : List Record × Engine :=
  match e.cache with
  | some v => (v, e)
  | none =>
      let v := filtered_data e.params e.df
      (v, { e with cache := some v, recomputes := e.recomputes + 1 })

/-- Modelled from the spec: a write to any filter parameter invalidates the
cached view (coarse-grained whole-view invalidation). -/
def set_params (e : Engine) (p : Params) : Engine :=
  { e with params := p, cache := none }

/-- `k` consecutive `current_view()` calls with no intervening parameter
change, collecting the returned views. -/
def call_views : Nat → Engine → List (List Record) × Engine
  | 0, e => ([], e)
  | k + 1, e =>
      let ve := current_view e
      let rest := call_views k ve.2
      (ve.1 :: rest.1, rest.2)

theorem call_views_cached (k : Nat) (e : Engine) (v : List Record)
    (h : e.cache = some v) : call_views k e = (List.replicate k v, e) := by
  induction k with
  | zero => rfl
  | succ k ih =>
      unfold call_views current_view
      rw [h]
      simp only [ih]
      rfl

/-- C2: after a parameter write (which invalidates the cache), `k ≥ 1`
consecutive `current_view()` calls with no intervening parameter change
recompute exactly once, and every one of the `k` calls returns that single
recomputed view `filtered_data p df`; the write itself empties the cache, so
the next call must recompute before returning. -/
theorem call_views_invalidated (j : Nat) (e : Engine) (h : e.cache = none) :
    call_views (j + 1) e =
      (List.replicate (j + 1) (filtered_data e.params e.df),
        { e with cache := some (filtered_data e.params e.df),
                 recomputes := e.recomputes + 1 }) := by
  unfold call_views current_view
  rw [h]
  simp only []
  rw [call_views_cached j
    { e with cache := some (filtered_data e.params e.df),
             recomputes := e.recomputes + 1 } (filtered_data e.params e.df) rfl]
  simp [List.replicate_succ]

/-- C2: after a parameter write (which invalidates the cache), `k ≥ 1`
consecutive `current_view()` calls with no intervening parameter change
recompute exactly once, and every one of the `k` calls returns that single
recomputed view `filtered_data p df`; the write itself empties the cache, so
the next call must recompute before returning. -/
theorem caching_contract (e : Engine) (p : Params) (k : Nat) (hk : 1 ≤ k) :
    (set_params e p).cache = none ∧
    (call_views k (set_params e p)).2.recomputes = e.recomputes + 1 ∧
    (call_views k (set_params e p)).1 =
      List.replicate k (filtered_data p e.df) := by
  obtain ⟨j, rfl⟩ : ∃ j, k = j + 1 := ⟨k - 1, by omega⟩
  rw [call_views_invalidated j (set_params e p) rfl]
  exact ⟨rfl, rfl, rfl⟩

theorem caching_contract_witness :
    (call_views 3 (set_params
        ⟨⟨"All", 25, 60, "All", "All", "All", false, 1, 99⟩,
          [⟨30, "Private", "Bachelors", "Sales", "White", "Female",
            0, 40, "United-States", "<=50K", some "26-35"⟩], none, 0⟩
        ⟨"Female", 18, 90, "All", "All", "All", false, 1, 99⟩)).2.recomputes = 1 :=
  (caching_contract _ _ 3 (by decide)).2.1

/-- ASCII whitespace, the characters `str.strip` removes from these column
names (space, tab, newline, carriage return). -/
def isSpaceChar (c : Char) : Bool :=
  c.toNat == 32 || c.toNat == 9 || c.toNat == 10 || c.toNat == 13

/-- ASCII lowercasing of one character (`str.lower` over these column names):
shift `A`..`Z` (codes 65-90) up by 32. -/
def lowerChar (c : Char) : Char :=
  if 65 ≤ c.toNat ∧ c.toNat ≤ 90 then Char.ofNat (c.toNat + 32) else c

/-- One-character step of `str.replace('-', '_')`. -/
def dashChar (c : Char) : Char := if c = '-' then '_' else c

/-- Strip leading and trailing whitespace (`str.strip`). -/
def trimChars (l : List Char) : List Char :=
  (l.dropWhile isSpaceChar).rdropWhile isSpaceChar

/-- Column-name normalization of `load_data` (src/app.py line 14):
`df.columns.str.strip().str.lower().str.replace('-', '_')`. -/
def normalizeCol (s : String) : String :=
  String.mk (((trimChars s.data).map lowerChar).map dashChar)

/-- `df['native_country'].replace("?", "Unknown")` (src/app.py line 18). -/
def replaceUnknown (r : Record) : Record :=
  { r with native_country := if r.native_country = "?" then "Unknown" else r.native_country }

/-- `df['age_group'] = pd.cut(df['age'], ...)` (src/app.py lines 20-23). -/
def addAgeGroup (r : Record) : Record :=
  { r with age_group := ageGroup r.age }

/-- `load_data` (src/app.py lines 10-25), minus the file read: normalize the
column names, drop rows with `workclass == "?"`, drop rows with
`occupation == "?"`, relabel `native_country == "?"` as `"Unknown"`, and
derive the `age_group` column. -/
def load_data (t : Table) : Table :=
  let cols := t.cols.map normalizeCol
  let rows := t.rows.filter (fun r => ¬ r.workclass = "?")
  let rows := rows.filter (fun r => ¬ r.occupation = "?")
  let rows := rows.map replaceUnknown
  let rows := rows.map addAgeGroup
  { cols := cols, rows := rows }

theorem load_data_eq (t : Table) :
    load_data t =
      { cols := t.cols.map normalizeCol,
        rows := (t.rows.filter
            (fun r => r.workclass ≠ "?" ∧ r.occupation ≠ "?")).map
          (fun r => addAgeGroup (replaceUnknown r)) } := by
  unfold load_data
  simp only [List.filter_filter, List.map_map]
  congr 1
  apply congrArg
  apply List.filter_congr
  intro r _
  rw [Bool.eq_iff_iff]
  simp only [Bool.and_eq_true, decide_eq_true_eq]
  tauto

/-- C5: the load cleans exactly as specified — column names are normalized
(trim, lowercase, `-` to `_`), the rows surviving are exactly those with
`workclass ≠ "?"` and `occupation ≠ "?"` in their source order (a single
order-preserving filter), and the only value changes on a surviving row are
the `native_country` `"?"` relabeling to `"Unknown"` and the derived
`age_group`; every other field is untouched. -/
theorem load_cleaning_spec (t : Table) :
    (load_data t =
      { cols := t.cols.map normalizeCol,
        rows := (t.rows.filter
            (fun r => r.workclass ≠ "?" ∧ r.occupation ≠ "?")).map
          (fun r => addAgeGroup (replaceUnknown r)) }) ∧
    (∀ r : Record,
      (addAgeGroup (replaceUnknown r)).age = r.age ∧
      (addAgeGroup (replaceUnknown r)).workclass = r.workclass ∧
      (addAgeGroup (replaceUnknown r)).education = r.education ∧
      (addAgeGroup (replaceUnknown r)).occupation = r.occupation ∧
      (addAgeGroup (replaceUnknown r)).race = r.race ∧
      (addAgeGroup (replaceUnknown r)).gender = r.gender ∧
      (addAgeGroup (replaceUnknown r)).capital_gain = r.capital_gain ∧
      (addAgeGroup (replaceUnknown r)).hours_per_week = r.hours_per_week ∧
      (addAgeGroup (replaceUnknown r)).income = r.income ∧
      (addAgeGroup (replaceUnknown r)).native_country =
        (if r.native_country = "?" then "Unknown" else r.native_country) ∧
      (addAgeGroup (replaceUnknown r)).age_group = ageGroup r.age) :=
  ⟨load_data_eq t,
    fun _ => ⟨rfl, rfl, rfl, rfl, rfl, rfl, rfl, rfl, rfl, rfl, rfl⟩⟩

theorem toNat_ofNat_valid (n : Nat) (h : n.isValidChar) :
    (Char.ofNat n).toNat = n := by
  simp [Char.ofNat, h, Char.ofNatAux, Char.toNat, UInt32.toNat]

theorem lowerChar_idem (c : Char) : lowerChar (lowerChar c) = lowerChar c := by
  by_cases h : 65 ≤ c.toNat ∧ c.toNat ≤ 90
  · have hv : (c.toNat + 32).isValidChar := Or.inl (by omega)
    have ht := toNat_ofNat_valid _ hv
    unfold lowerChar
    rw [if_pos h, if_neg (by rw [ht]; omega)]
  · unfold lowerChar
    rw [if_neg h, if_neg h]

theorem isSpaceChar_lowerChar (c : Char) :
    isSpaceChar (lowerChar c) = isSpaceChar c := by
  by_cases h : 65 ≤ c.toNat ∧ c.toNat ≤ 90
  · have hv : (c.toNat + 32).isValidChar := Or.inl (by omega)
    have ht := toNat_ofNat_valid _ hv
    unfold lowerChar
    rw [if_pos h]
    unfold isSpaceChar
    rw [Bool.eq_iff_iff]
    simp only [Bool.or_eq_true, beq_iff_eq, ht]
    omega
  · unfold lowerChar
    rw [if_neg h]

theorem isSpaceChar_dashChar (c : Char) :
    isSpaceChar (dashChar c) = isSpaceChar c := by
  unfold dashChar
  split_ifs with h
  · subst h
    decide
  · rfl

theorem dash_lower_idem (c : Char) :
    dashChar (lowerChar (dashChar (lowerChar c))) = dashChar (lowerChar c) := by
  by_cases h : lowerChar c = '-'
  · rw [h]
    decide
  · have hd : dashChar (lowerChar c) = lowerChar c := by
      unfold dashChar
      rw [if_neg h]
    rw [hd, lowerChar_idem, hd]

theorem rdropWhile_map (p : Char → Bool) (f : Char → Char)
    (hf : ∀ c, p (f c) = p c) (l : List Char) :
    List.rdropWhile p (l.map f) = (List.rdropWhile p l).map f := by
  have h2 : p ∘ f = p := funext hf
  unfold List.rdropWhile
  rw [← List.map_reverse, List.dropWhile_map, h2, List.map_reverse]

theorem trimChars_map (f : Char → Char)
    (hf : ∀ c, isSpaceChar (f c) = isSpaceChar c) (l : List Char) :
    trimChars (l.map f) = (trimChars l).map f := by
  have h2 : isSpaceChar ∘ f = isSpaceChar := funext hf
  unfold trimChars
  rw [List.dropWhile_map, h2, rdropWhile_map isSpaceChar f hf]

theorem trimChars_trimChars (l : List Char) :
    trimChars (trimChars l) = trimChars l := by
  unfold trimChars
  have h1 : List.dropWhile isSpaceChar
      ((List.dropWhile isSpaceChar l).rdropWhile isSpaceChar) =
      (List.dropWhile isSpaceChar l).rdropWhile isSpaceChar := by
    rw [List.dropWhile_eq_self_iff]
    intro hl
    have hpre := List.rdropWhile_prefix isSpaceChar (List.dropWhile isSpaceChar l)
    have hlen : 0 < (List.dropWhile isSpaceChar l).length :=
      lt_of_lt_of_le hl hpre.length_le
    have hget := hpre.getElem hl
    have hz := List.dropWhile_get_zero_not isSpaceChar l hlen
    simp only [List.get_eq_getElem] at hz ⊢
    rw [hget]
    exact hz
  rw [h1, List.rdropWhile_idempotent]

theorem normalizeCol_idem (s : String) :
    normalizeCol (normalizeCol s) = normalizeCol s := by
  unfold normalizeCol
  congr 1
  rw [show (String.mk (((trimChars s.data).map lowerChar).map dashChar)).data =
      ((trimChars s.data).map lowerChar).map dashChar from rfl]
  rw [trimChars_map dashChar isSpaceChar_dashChar,
    trimChars_map lowerChar isSpaceChar_lowerChar, trimChars_trimChars]
  simp only [List.map_map]
  congr 1
  funext c
  exact dash_lower_idem c

theorem fix_fix (r : Record) :
    addAgeGroup (replaceUnknown (addAgeGroup (replaceUnknown r))) =
      addAgeGroup (replaceUnknown r) := by
  cases r with
  | mk age wk ed oc ra ge cg hp nc inc ag =>
      unfold addAgeGroup replaceUnknown
      by_cases h : nc = "?" <;> simp [h]

/-- C9: the cleaning pipeline is idempotent — running `load_data`'s cleaning
steps on a table that is already the output of cleaning drops no further
rows, changes no further values, and leaves the derived `age_group`
unchanged. -/
theorem cleaning_idempotent (t : Table) :
    load_data (load_data t) = load_data t := by
  rw [load_data_eq t, load_data_eq]
  have hq : ∀ r ∈ (t.rows.filter
      (fun r => r.workclass ≠ "?" ∧ r.occupation ≠ "?")).map
        (fun r => addAgeGroup (replaceUnknown r)),
      (decide (r.workclass ≠ "?" ∧ r.occupation ≠ "?")) = true := by
    intro r hr
    rw [List.mem_map] at hr
    obtain ⟨s, hs, rfl⟩ := hr
    have := List.of_mem_filter hs
    simp only [decide_eq_true_eq] at this ⊢
    exact this
  congr 1
  · rw [List.map_map]
    congr 1
    funext c
    exact normalizeCol_idem c
  · rw [List.filter_eq_self.mpr hq, List.map_map]
    congr 1
    funext r
    exact fix_fix r

/-- Decimal digit character for a digit value (used to print the numeric
columns the way `to_csv` does). -/
def digitChar (d : Nat) : Char :=
  match d with
  | 0 => '0'
  | 1 => '1'
  | 2 => '2'
  | 3 => '3'
  | 4 => '4'
  | 5 => '5'
  | 6 => '6'
  | 7 => '7'
  | 8 => '8'
  | _ => '9'

/-- Decimal rendering of a natural number, most significant digit first. -/
def natChars (n : Nat) : List Char :=
  if n = 0 then ['0'] else ((Nat.digits 10 n).map digitChar).reverse

def isDigitChar (c : Char) : Bool :=
  decide (48 ≤ c.toNat ∧ c.toNat ≤ 57)

def digitVal (c : Char) : Nat := c.toNat - 48

/-- Decimal parsing, as `read_csv` would re-parse a numeric column. -/
def parseNat (l : List Char) : Option Nat :=
  if l ≠ [] ∧ ∀ c ∈ l, isDigitChar c then
    some (Nat.ofDigits 10 ((l.map digitVal).reverse))
  else none

/-- The CSV cell for the `age_group` column: pandas serializes `NaN` as the
empty cell. -/
def optionCell (ag : Option String) : List Char :=
  match ag with
  | none => []
  | some s => s.data

/-- The CSV cells of one row, in the column order of `Record`. -/
def rowCells (r : Record) : List (List Char) :=
  [natChars r.age, r.workclass.data, r.education.data, r.occupation.data,
    r.race.data, r.gender.data, natChars r.capital_gain,
    natChars r.hours_per_week, r.native_country.data, r.income.data,
    optionCell r.age_group]

/-- One CSV line: the cells joined by commas. -/
def csvLine (cells : List (List Char)) : List Char :=
  List.intercalate [','] cells

/-- `DataFrame.to_csv(index=False)`: a header line with the column names, one
line per row in order, each line terminated by a newline, and no index
column. -/
def to_csv (t : Table) : List Char :=
  List.intercalate ['\n']
    ((csvLine (t.cols.map String.data) :: t.rows.map (fun r => csvLine (rowCells r))) ++ [[]])

/-- `download_data` (src/app.py lines 319-322): serialize the global filtered
view — `filtered_data().to_csv(index=False)` — with the table's column
names; no local tab filter is applied. -/
def download_data (p : Params) (t : Table) : List Char :=
  to_csv { cols := t.cols, rows := filtered_data p t.rows }

/-- Re-parse one CSV row (positional, the 11 modeled columns). -/
def parseRecord (cells : List (List Char)) : Option Record :=
  match cells with
  | [a, w, ed, oc, ra, ge, cg, hp, nc, inc, ag] =>
      match parseNat a, parseNat cg, parseNat hp with
      | some age, some cgN, some hpN =>
          some { age := age, workclass := String.mk w, education := String.mk ed,
                 occupation := String.mk oc, race := String.mk ra,
                 gender := String.mk ge, capital_gain := cgN,
                 hours_per_week := hpN, native_country := String.mk nc,
                 income := String.mk inc,
                 age_group := if ag = [] then none else some (String.mk ag) }
      | _, _, _ => none
  | _ => none

def parseRows : List (List Char) → Option (List Record)
  | [] => some []
  | l :: ls =>
      match parseRecord (l.splitOn ','), parseRows ls with
      | some r, some rs => some (r :: rs)
      | _, _ => none

/-- Re-parse a CSV byte stream: split into newline-terminated lines, read the
header as the column names, and parse each remaining line as a row. -/
def parse_csv (s : List Char) : Option Table :=
  let lines := s.splitOn '\n'
  match lines.getLast? with
  | some [] =>
      match lines.dropLast with
      | [] => none
      | header :: rowLines =>
          match parseRows rowLines with
          | some rows =>
              some { cols := (header.splitOn ',').map String.mk, rows := rows }
          | none => none
  | _ => none

/-- A string that can live in a CSV cell unescaped. -/
def cleanStr (s : String) : Prop :=
  ∀ c ∈ s.data, c ≠ ',' ∧ c ≠ '\n'

instance : DecidablePred cleanStr := fun s => by
  unfold cleanStr
  infer_instance

/-- Well-formedness of a row for CSV round-tripping: the string columns are
comma- and newline-free, and a present `age_group` label is a nonempty clean
string. -/
def wfRecord (r : Record) : Prop :=
  cleanStr r.workclass ∧ cleanStr r.education ∧ cleanStr r.occupation ∧
  cleanStr r.race ∧ cleanStr r.gender ∧ cleanStr r.native_country ∧
  cleanStr r.income ∧ (∀ s, r.age_group = some s → cleanStr s ∧ s ≠ "")

instance : DecidablePred wfRecord := fun r => by
  unfold wfRecord
  infer_instance

/-- Well-formedness of a table for CSV round-tripping. -/
def wfTable (t : Table) : Prop :=
  t.cols ≠ [] ∧ (∀ c ∈ t.cols, cleanStr c) ∧ ∀ r ∈ t.rows, wfRecord r

instance : Decidable (wfTable t) := by
  unfold wfTable
  infer_instance

theorem intercalate_cons₂ (s : α) (x y : List α) (rest : List (List α)) :
    List.intercalate [s] (x :: y :: rest) = x ++ s :: List.intercalate [s] (y :: rest) := by
  simp [List.intercalate, List.intersperse]

theorem mem_csvLine {c : Char} {cells : List (List Char)} (h : c ∈ csvLine cells) :
    c = ',' ∨ ∃ x ∈ cells, c ∈ x := by
  induction cells with
  | nil => simp [csvLine, List.intercalate] at h
  | cons x rest ih =>
      cases rest with
      | nil =>
          simp only [csvLine, List.intercalate, List.intersperse] at h
          simp at h
          exact Or.inr ⟨x, by simp, h⟩
      | cons y rest' =>
          rw [csvLine, intercalate_cons₂] at h
          rcases List.mem_append.mp h with hx | hrest
          · exact Or.inr ⟨x, by simp, hx⟩
          · rcases List.mem_cons.mp hrest with hc | hrest'
            · exact Or.inl hc
            · rcases ih hrest' with hc | ⟨z, hz, hcz⟩
              · exact Or.inl hc
              · exact Or.inr ⟨z, by simp [hz], hcz⟩

theorem natChars_digit {n : Nat} {c : Char} (h : c ∈ natChars n) :
    isDigitChar c = true := by
  unfold natChars at h
  split_ifs at h with h0
  · simp at h
    subst h
    decide
  · rw [List.mem_reverse, List.mem_map] at h
    obtain ⟨d, hd, rfl⟩ := h
    have hlt : d < 10 := Nat.digits_lt_base (by norm_num) hd
    interval_cases d <;> decide

theorem digitVal_digitChar {d : Nat} (h : d < 10) : digitVal (digitChar d) = d := by
  interval_cases d <;> decide

theorem parseNat_natChars (n : Nat) : parseNat (natChars n) = some n := by
  by_cases h0 : n = 0
  · subst h0
    decide
  · have hne : natChars n ≠ [] := by
      unfold natChars
      rw [if_neg h0]
      simp [Nat.digits_ne_nil_iff_ne_zero.mpr h0]
    unfold parseNat
    rw [if_pos ⟨hne, fun c hc => natChars_digit hc⟩]
    congr 1
    unfold natChars
    rw [if_neg h0]
    rw [List.map_reverse, List.reverse_reverse, List.map_map]
    have : List.map (digitVal ∘ digitChar) (Nat.digits 10 n) = Nat.digits 10 n := by
      conv_rhs => rw [← List.map_id (Nat.digits 10 n)]
      apply List.map_congr_left
      intro d hd
      simp only [Function.comp, id]
      exact digitVal_digitChar (Nat.digits_lt_base (by norm_num) hd)
    rw [this, Nat.ofDigits_digits]

theorem splitOn_csvLine {cells : List (List Char)} (hne : cells ≠ [])
    (hcl : ∀ x ∈ cells, ',' ∉ x) : (csvLine cells).splitOn ',' = cells := by
  apply List.splitOn_intercalate <;> first | exact hcl | exact hne

theorem parseRecord_rowCells (r : Record) (hr : wfRecord r) :
    parseRecord (rowCells r) = some r := by
  obtain ⟨hw, hed, hoc, hra, hge, hnc, hinc, hag⟩ := hr
  unfold parseRecord rowCells
  dsimp only
  rw [parseNat_natChars, parseNat_natChars, parseNat_natChars]
  dsimp only
  cases r with
  | mk age wk ed oc ra ge cg hp nc inc ag =>
      cases ag with
      | none => rfl
      | some s =>
          obtain ⟨-, hs⟩ := hag s rfl
          have hne : optionCell (some s) ≠ [] := by
            intro hcontra
            apply hs
            cases s with
            | mk cs => exact congrArg String.mk hcontra
          dsimp only [optionCell] at hne ⊢
          rw [if_neg hne]

theorem noComma_rowCells (r : Record) (hr : wfRecord r) :
    ∀ x ∈ rowCells r, ',' ∉ x := by
  obtain ⟨hw, hed, hoc, hra, hge, hnc, hinc, hag⟩ := hr
  intro x hx
  unfold rowCells at hx
  simp only [List.mem_cons, List.not_mem_nil, or_false] at hx
  rcases hx with h | h | h | h | h | h | h | h | h | h | h <;> subst h <;>
    intro hc
  · have := natChars_digit hc
    revert this
    decide
  · exact (hw _ hc).1 rfl
  · exact (hed _ hc).1 rfl
  · exact (hoc _ hc).1 rfl
  · exact (hra _ hc).1 rfl
  · exact (hge _ hc).1 rfl
  · have := natChars_digit hc
    revert this
    decide
  · have := natChars_digit hc
    revert this
    decide
  · exact (hnc _ hc).1 rfl
  · exact (hinc _ hc).1 rfl
  · cases hag2 : r.age_group with
    | none =>
        rw [hag2] at hc
        simp [optionCell] at hc
    | some s =>
        rw [hag2] at hc
        exact ((hag s hag2).1 _ hc).1 rfl

theorem noNewline_csvLine_rowCells (r : Record) (hr : wfRecord r) :
    '\n' ∉ csvLine (rowCells r) := by
  intro hc
  rcases mem_csvLine hc with h | ⟨x, hx, hcx⟩
  · exact absurd h (by decide)
  · obtain ⟨hw, hed, hoc, hra, hge, hnc, hinc, hag⟩ := hr
    unfold rowCells at hx
    simp only [List.mem_cons, List.not_mem_nil, or_false] at hx
    rcases hx with h | h | h | h | h | h | h | h | h | h | h <;> subst h
    · have := natChars_digit hcx
      revert this
      decide
    · exact (hw _ hcx).2 rfl
    · exact (hed _ hcx).2 rfl
    · exact (hoc _ hcx).2 rfl
    · exact (hra _ hcx).2 rfl
    · exact (hge _ hcx).2 rfl
    · have := natChars_digit hcx
      revert this
      decide
    · have := natChars_digit hcx
      revert this
      decide
    · exact (hnc _ hcx).2 rfl
    · exact (hinc _ hcx).2 rfl
    · cases hag2 : r.age_group with
      | none =>
          rw [hag2] at hcx
          simp [optionCell] at hcx
      | some s =>
          rw [hag2] at hcx
          exact ((hag s hag2).1 _ hcx).2 rfl

theorem noNewline_csvLine_header (cols : List String) (h : ∀ c ∈ cols, cleanStr c) :
    '\n' ∉ csvLine (cols.map String.data) := by
  intro hc
  rcases mem_csvLine hc with hx | ⟨x, hx, hcx⟩
  · exact absurd hx (by decide)
  · rw [List.mem_map] at hx
    obtain ⟨s, hs, rfl⟩ := hx
    exact (h s hs _ hcx).2 rfl

theorem parseRows_map_csvLine (rows : List Record) (h : ∀ r ∈ rows, wfRecord r) :
    parseRows (rows.map (fun r => csvLine (rowCells r))) = some rows := by
  induction rows with
  | nil => rfl
  | cons r rest ih =>
      have hr := h r (by simp)
      unfold parseRows
      rw [List.map_cons]
      simp only
      rw [splitOn_csvLine (by simp [rowCells]) (noComma_rowCells r hr)]
      rw [parseRecord_rowCells r hr]
      rw [ih (fun s hs => h s (by simp [hs]))]

/-- C7: the CSV download serializes the global filtered view — not the
financial tab's locally refined data — with the table's column names as
header, no index column, and rows in view order; and re-parsing the exported
characters recovers exactly the in-memory filtered table, column names and
rows alike. -/
theorem parse_csv_lines (hdr : List Char) (rls : List (List Char))
    (hnl : ∀ l ∈ (hdr :: rls), '\n' ∉ l) :
    parse_csv (List.intercalate ['\n'] ((hdr :: rls) ++ [[]])) =
      (match parseRows rls with
        | some rows => some { cols := (hdr.splitOn ',').map String.mk, rows := rows }
        | none => none) := by
  unfold parse_csv
  have hsplit : (List.intercalate ['\n'] ((hdr :: rls) ++ [[]])).splitOn '\n' =
      (hdr :: rls) ++ [[]] := by
    apply List.splitOn_intercalate <;>
      first
      | · intro l hl
          rcases List.mem_append.mp hl with hl | hl
          · exact hnl l hl
          · simp only [List.mem_singleton] at hl
            subst hl
            simp
      | simp
  dsimp only
  rw [hsplit]
  rw [List.getLast?_concat, List.dropLast_concat]

/-- C7: the CSV download serializes the global filtered view — not the
financial tab's locally refined data — with the table's column names as
header, no index column, and rows in view order; and re-parsing the exported
characters recovers exactly the in-memory filtered table, column names and
rows alike. -/
theorem csv_export_roundtrip (p : Params) (t : Table) (hwf : wfTable t) :
    download_data p t = to_csv { cols := t.cols, rows := filtered_data p t.rows } ∧
    parse_csv (download_data p t) =
      some { cols := t.cols, rows := filtered_data p t.rows } := by
  obtain ⟨hcols_ne, hcols, hrows⟩ := hwf
  refine ⟨rfl, ?_⟩
  have hview : ∀ r ∈ filtered_data p t.rows, wfRecord r := by
    intro r hr
    apply hrows
    rw [filtered_data_eq_filter] at hr
    exact List.mem_of_mem_filter hr
  have hnl : ∀ l ∈ (csvLine (t.cols.map String.data) ::
      (filtered_data p t.rows).map (fun r => csvLine (rowCells r))), '\n' ∉ l := by
    intro l hl
    rcases List.mem_cons.mp hl with rfl | hl
    · exact noNewline_csvLine_header t.cols hcols
    · rw [List.mem_map] at hl
      obtain ⟨r, hr, rfl⟩ := hl
      exact noNewline_csvLine_rowCells r (hview r hr)
  have heq : parse_csv (download_data p t) =
      (match parseRows ((filtered_data p t.rows).map (fun r => csvLine (rowCells r))) with
        | some rows =>
            some { cols := ((csvLine (t.cols.map String.data)).splitOn ',').map String.mk,
                   rows := rows }
        | none => none) :=
    parse_csv_lines _ _ hnl
  rw [heq, parseRows_map_csvLine _ hview]
  dsimp only
  rw [splitOn_csvLine (by simpa using hcols_ne)
    (by
      intro x hx
      rw [List.mem_map] at hx
      obtain ⟨s, hs, rfl⟩ := hx
      intro hc
      exact (hcols s hs _ hc).1 rfl)]
  rw [List.map_map]
  have hmk : (String.mk ∘ String.data) = id := by
    funext s
    rfl
  rw [hmk, List.map_id]

theorem csv_export_roundtrip_witness :
    parse_csv (download_data ⟨"All", 18, 90, "All", "All", "All", false, 1, 99⟩
        ⟨["age", "workclass", "education", "occupation", "race", "gender",
          "capital_gain", "hours_per_week", "native_country", "income", "age_group"],
          [⟨30, "Private", "Bachelors", "Sales", "White", "Female",
            0, 40, "United-States", "<=50K", some "26-35"⟩]⟩) =
      some ⟨["age", "workclass", "education", "occupation", "race", "gender",
          "capital_gain", "hours_per_week", "native_country", "income", "age_group"],
          filtered_data ⟨"All", 18, 90, "All", "All", "All", false, 1, 99⟩
            [⟨30, "Private", "Bachelors", "Sales", "White", "Female",
              0, 40, "United-States", "<=50K", some "26-35"⟩]⟩ :=
  (csv_export_roundtrip _ _ (by decide)).2

theorem income_by_education_data_subset {p : Params} {df : List Record} {s : Record}
    (h : s ∈ income_by_education_data p df) : s ∈ filtered_data p df := by
  unfold income_by_education_data at h
  split_ifs at h with hc
  · exact List.mem_of_mem_filter h
  · exact h

theorem top_occupations_data_subset {p : Params} {df : List Record} {s : Record}
    (h : s ∈ top_occupations_data p df) : s ∈ filtered_data p df := by
  unfold top_occupations_data at h
  split_ifs at h with hc
  · exact List.mem_of_mem_filter h
  · exact h

theorem capital_gain_plot_data_subset {p : Params} {df : List Record} {s : Record}
    (h : s ∈ capital_gain_plot_data p df) : s ∈ filtered_data p df := by
  unfold capital_gain_plot_data at h
  split_ifs at h with hc
  · exact List.mem_of_mem_filter h
  · exact h

theorem hours_vs_income_data_subset {p : Params} {df : List Record} {s : Record}
    (h : s ∈ hours_vs_income_data p df) : s ∈ filtered_data p df := by
  unfold hours_vs_income_data at h
  exact List.mem_of_mem_filter h

theorem age_lower_bound_in_view {p : Params} {df : List Record} {s : Record}
    (h : s ∈ filtered_data p df) : p.ageLo ≤ s.age := by
  rw [filtered_data_eq_filter] at h
  have := List.of_mem_filter h
  simp only [globalPred, decide_eq_true_eq] at this
  exact this.2.1.1

/-- C10: the cleaning never drops a row because of its age, so a record
younger than 18 (passing the `workclass`/`occupation` checks) survives the
load with its age intact; yet under any filter-parameter state within the
age slider's UI domain (`18 ≤ lo ≤ hi ≤ 90`, src/app.py line 93) the global
filtered view — and hence every consumer's data and the rows the CSV export
serializes — contains no record with age below 18. -/
theorem minors_survive_load_but_invisible (t : Table) (p : Params) (r : Record)
    (hr : r ∈ t.rows) (hw : r.workclass ≠ "?") (ho : r.occupation ≠ "?")
    (hlo : 18 ≤ p.ageLo) (_hlh : p.ageLo ≤ p.ageHi) (_hhi : p.ageHi ≤ 90) :
    (addAgeGroup (replaceUnknown r) ∈ (load_data t).rows ∧
      (addAgeGroup (replaceUnknown r)).age = r.age) ∧
    (∀ s ∈ filtered_data p (load_data t).rows, 18 ≤ s.age) ∧
    (∀ s ∈ income_by_education_data p (load_data t).rows, 18 ≤ s.age) ∧
    (∀ s ∈ top_occupations_data p (load_data t).rows, 18 ≤ s.age) ∧
    (∀ s ∈ capital_gain_plot_data p (load_data t).rows, 18 ≤ s.age) ∧
    (∀ s ∈ hours_vs_income_data p (load_data t).rows, 18 ≤ s.age) ∧
    download_data p (load_data t) =
      to_csv { cols := (load_data t).cols,
               rows := filtered_data p (load_data t).rows } := by
  have hview : ∀ s ∈ filtered_data p (load_data t).rows, 18 ≤ s.age := by
    intro s hs
    have := age_lower_bound_in_view hs
    omega
  refine ⟨⟨?_, rfl⟩, hview, ?_, ?_, ?_, ?_, rfl⟩
  · rw [load_data_eq]
    simp only
    rw [List.mem_map]
    refine ⟨r, ?_, rfl⟩
    rw [List.mem_filter]
    exact ⟨hr, by simp [hw, ho]⟩
  · exact fun s hs => hview s (income_by_education_data_subset hs)
  · exact fun s hs => hview s (top_occupations_data_subset hs)
  · exact fun s hs => hview s (capital_gain_plot_data_subset hs)
  · exact fun s hs => hview s (hours_vs_income_data_subset hs)

theorem minors_survive_load_but_invisible_witness :
    (addAgeGroup (replaceUnknown
        ⟨17, "Private", "11th", "Sales", "White", "Male",
          0, 20, "United-States", "<=50K", none⟩) ∈
      (load_data ⟨[], [⟨17, "Private", "11th", "Sales", "White", "Male",
          0, 20, "United-States", "<=50K", none⟩]⟩).rows ∧
      (addAgeGroup (replaceUnknown
        ⟨17, "Private", "11th", "Sales", "White", "Male",
          0, 20, "United-States", "<=50K", none⟩)).age = 17) ∧
    (∀ s ∈ filtered_data ⟨"All", 18, 90, "All", "All", "All", false, 1, 99⟩
        (load_data ⟨[], [⟨17, "Private", "11th", "Sales", "White", "Male",
          0, 20, "United-States", "<=50K", none⟩]⟩).rows, 18 ≤ s.age) :=
  ⟨(minors_survive_load_but_invisible
      ⟨[], [⟨17, "Private", "11th", "Sales", "White", "Male",
        0, 20, "United-States", "<=50K", none⟩]⟩
      ⟨"All", 18, 90, "All", "All", "All", false, 1, 99⟩
      ⟨17, "Private", "11th", "Sales", "White", "Male",
        0, 20, "United-States", "<=50K", none⟩
      (by decide) (by decide) (by decide)
      (by decide) (by decide) (by decide)).1,
    (minors_survive_load_but_invisible
      ⟨[], [⟨17, "Private", "11th", "Sales", "White", "Male",
        0, 20, "United-States", "<=50K", none⟩]⟩
      ⟨"All", 18, 90, "All", "All", "All", false, 1, 99⟩
      ⟨17, "Private", "11th", "Sales", "White", "Male",
        0, 20, "United-States", "<=50K", none⟩
      (by decide) (by decide) (by decide)
      (by decide) (by decide) (by decide)).2.1⟩

theorem firstUniquesAux_mem (seen : List String) (l : List String) (o : String) :
    o ∈ firstUniquesAux seen l ↔ o ∈ l ∧ o ∉ seen := by
  induction l generalizing seen with
  | nil => simp [firstUniquesAux]
  | cons x xs ih =>
      unfold firstUniquesAux
      split_ifs with hx
      · rw [ih]
        constructor
        · rintro ⟨h1, h2⟩
          exact ⟨List.mem_cons.mpr (Or.inr h1), h2⟩
        · rintro ⟨h1, h2⟩
          rcases List.mem_cons.mp h1 with rfl | h1
          · exact absurd hx h2
          · exact ⟨h1, h2⟩
      · rw [List.mem_cons, ih]
        constructor
        · rintro (rfl | ⟨h1, h2⟩)
          · exact ⟨by simp, hx⟩
          · refine ⟨List.mem_cons.mpr (Or.inr h1), ?_⟩
            intro hseen
            exact h2 (List.mem_cons.mpr (Or.inr hseen))
        · rintro ⟨h1, h2⟩
          rcases List.mem_cons.mp h1 with rfl | h1
          · exact Or.inl rfl
          · by_cases ho : o = x
            · exact Or.inl ho
            · right
              refine ⟨h1, ?_⟩
              intro hmem
              rcases List.mem_cons.mp hmem with h | h
              · exact ho h
              · exact h2 h

theorem firstUniquesAux_nodup (seen : List String) (l : List String) :
    (firstUniquesAux seen l).Nodup := by
  induction l generalizing seen with
  | nil => simp [firstUniquesAux]
  | cons x xs ih =>
      unfold firstUniquesAux
      split_ifs with hx
      · exact ih seen
      · refine List.nodup_cons.mpr ⟨?_, ih (x :: seen)⟩
        intro hmem
        exact ((firstUniquesAux_mem _ _ _).mp hmem).2 (by simp)

theorem firstUniques_mem (l : List String) (o : String) :
    o ∈ firstUniques l ↔ o ∈ l := by
  unfold firstUniques
  rw [firstUniquesAux_mem]
  simp

theorem firstUniques_nodup (l : List String) : (firstUniques l).Nodup :=
  firstUniquesAux_nodup [] l

theorem mem_value_counts {occs : List String} {pr : String × Nat} :
    pr ∈ value_counts occs ↔
      pr.1 ∈ firstUniques occs ∧ pr.2 = countVal occs pr.1 := by
  unfold value_counts
  rw [(List.perm_insertionSort _ _).mem_iff, List.mem_map]
  constructor
  · rintro ⟨o, ho, rfl⟩
    exact ⟨ho, rfl⟩
  · obtain ⟨a, b⟩ := pr
    rintro ⟨h1, h2⟩
    simp only at h1 h2
    subst h2
    exact ⟨a, h1, rfl⟩

theorem value_counts_sorted (occs : List String) :
    List.Sorted (vcLE occs) (value_counts occs) := by
  haveI : IsTotal (String × Nat) (vcLE occs) := ⟨by
    intro a b
    unfold vcLE
    omega⟩
  haveI : IsTrans (String × Nat) (vcLE occs) := ⟨by
    intro a b c hab hbc
    unfold vcLE at hab hbc ⊢
    omega⟩
  exact List.sorted_insertionSort _ _

theorem value_counts_fst_nodup (occs : List String) :
    List.Pairwise (fun a b : String × Nat => a.1 ≠ b.1) (value_counts occs) := by
  unfold value_counts
  rw [(List.perm_insertionSort _ _).pairwise_iff (fun h => h.symm)]
  rw [List.pairwise_map]
  exact (firstUniques_nodup occs).imp (fun h => by simpa using h)

theorem value_counts_pairwise (occs : List String) :
    List.Pairwise (fun a b : String × Nat => b.2 < a.2 ∨ (a.2 = b.2 ∧
      (firstUniques occs).indexOf a.1 < (firstUniques occs).indexOf b.1))
      (value_counts occs) := by
  have hcomb := (value_counts_sorted occs).and (value_counts_fst_nodup occs)
  apply List.Pairwise.imp_of_mem ?_ hcomb
  intro a b ha hb hab
  obtain ⟨hle, hne⟩ := hab
  unfold vcLE at hle
  rcases hle with h | ⟨heq, hidx⟩
  · exact Or.inl h
  · right
    refine ⟨heq, lt_of_le_of_ne hidx ?_⟩
    intro hcontra
    apply hne
    have ha1 : a.1 ∈ firstUniques occs := (mem_value_counts.mp ha).1
    have hb1 : b.1 ∈ firstUniques occs := (mem_value_counts.mp hb).1
    exact (List.indexOf_inj ha1 hb1).mp hcontra

/-- The `'>50K'` occupation column that `top_occupations` counts
(src/app.py line 257): `data[data['income'] == '>50K']['occupation']`. -/
def over50_occupations (p : Params) (df : List Record) : List String :=
  ((top_occupations_data p df).filter (fun r => r.income = ">50K")).map
    (fun r => r.occupation)

/-- `value_counts().head(10)` over that column (src/app.py line 257). -/
def top_jobs (p : Params) (df : List Record) : List (String × Nat) :=
  (value_counts (over50_occupations p df)).take 10

/-- C8: the top-occupations consumer, over the global view refined by the
local occupation filter, returns at most 10 occupation/count pairs: each
listed occupation occurs among the `'>50K'` records with exactly the listed
count, the list is ordered by count descending with ties broken by the
order in which the occupations are first encountered in the data, and every
occupation left out has a count no larger than any listed one. -/
theorem top_occupations_top10 (p : Params) (df : List Record) :
    (top_occupations_chart p df =
      if (top_jobs p df).length = 0 then OccRender.noDataText
      else OccRender.barChart (top_jobs p df)) ∧
    (top_jobs p df).length ≤ 10 ∧
    (∀ pr ∈ top_jobs p df,
      pr.1 ∈ over50_occupations p df ∧
      pr.2 = countVal (over50_occupations p df) pr.1) ∧
    List.Pairwise (fun a b => b.2 < a.2 ∨ (a.2 = b.2 ∧
      (firstUniques (over50_occupations p df)).indexOf a.1 <
        (firstUniques (over50_occupations p df)).indexOf b.1)) (top_jobs p df) ∧
    (∀ o ∈ over50_occupations p df, o ∉ (top_jobs p df).map Prod.fst →
      ∀ pr ∈ top_jobs p df, countVal (over50_occupations p df) o ≤ pr.2) := by
  refine ⟨rfl, List.length_take_le 10 _, ?_, ?_, ?_⟩
  · intro pr hpr
    have hm : pr ∈ value_counts (over50_occupations p df) :=
      List.take_subset 10 _ hpr
    obtain ⟨h1, h2⟩ := mem_value_counts.mp hm
    exact ⟨(firstUniques_mem _ _).mp h1, h2⟩
  · exact List.Pairwise.sublist (List.take_sublist 10 _)
      (value_counts_pairwise (over50_occupations p df))
  · intro o ho hnot pr hpr
    have hocc : (o, countVal (over50_occupations p df) o) ∈
        value_counts (over50_occupations p df) :=
      mem_value_counts.mpr ⟨(firstUniques_mem _ _).mpr ho, rfl⟩
    rw [← List.take_append_drop 10 (value_counts (over50_occupations p df))] at hocc
    rcases List.mem_append.mp hocc with intake | indrop
    · exact absurd (List.mem_map.mpr ⟨_, intake, rfl⟩) hnot
    · have hsorted := value_counts_sorted (over50_occupations p df)
      rw [← List.take_append_drop 10 (value_counts (over50_occupations p df))]
        at hsorted
      have h3 := (List.pairwise_append.mp hsorted).2.2 pr hpr _ indrop
      unfold vcLE at h3
      simp only at h3
      omega

theorem top_occupations_top10_witness :
    countVal (over50_occupations ⟨"All", 18, 90, "All", "All", "All", false, 1, 99⟩
      [⟨30, "P", "HS", "oA", "W", "M", 0, 40, "US", ">50K", none⟩,
       ⟨30, "P", "HS", "oB", "W", "M", 0, 40, "US", ">50K", none⟩,
       ⟨30, "P", "HS", "oC", "W", "M", 0, 40, "US", ">50K", none⟩,
       ⟨30, "P", "HS", "oD", "W", "M", 0, 40, "US", ">50K", none⟩,
       ⟨30, "P", "HS", "oE", "W", "M", 0, 40, "US", ">50K", none⟩,
       ⟨30, "P", "HS", "oF", "W", "M", 0, 40, "US", ">50K", none⟩,
       ⟨30, "P", "HS", "oG", "W", "M", 0, 40, "US", ">50K", none⟩,
       ⟨30, "P", "HS", "oH", "W", "M", 0, 40, "US", ">50K", none⟩,
       ⟨30, "P", "HS", "oI", "W", "M", 0, 40, "US", ">50K", none⟩,
       ⟨30, "P", "HS", "oJ", "W", "M", 0, 40, "US", ">50K", none⟩,
       ⟨30, "P", "HS", "oK", "W", "M", 0, 40, "US", ">50K", none⟩]) "oK" ≤
      (("oA", 1) : String × Nat).2 :=
  (top_occupations_top10 ⟨"All", 18, 90, "All", "All", "All", false, 1, 99⟩
      [⟨30, "P", "HS", "oA", "W", "M", 0, 40, "US", ">50K", none⟩,
       ⟨30, "P", "HS", "oB", "W", "M", 0, 40, "US", ">50K", none⟩,
       ⟨30, "P", "HS", "oC", "W", "M", 0, 40, "US", ">50K", none⟩,
       ⟨30, "P", "HS", "oD", "W", "M", 0, 40, "US", ">50K", none⟩,
       ⟨30, "P", "HS", "oE", "W", "M", 0, 40, "US", ">50K", none⟩,
       ⟨30, "P", "HS", "oF", "W", "M", 0, 40, "US", ">50K", none⟩,
       ⟨30, "P", "HS", "oG", "W", "M", 0, 40, "US", ">50K", none⟩,
       ⟨30, "P", "HS", "oH", "W", "M", 0, 40, "US", ">50K", none⟩,
       ⟨30, "P", "HS", "oI", "W", "M", 0, 40, "US", ">50K", none⟩,
       ⟨30, "P", "HS", "oJ", "W", "M", 0, 40, "US", ">50K", none⟩,
       ⟨30, "P", "HS", "oK", "W", "M", 0, 40, "US", ">50K", none⟩]).2.2.2.2
    "oK" (by decide) (by decide) ("oA", 1) (by decide)

end IncomeApp
